import Mathlib

/-!
Shallow embedding of the outbound-email delivery subsystem of the
`cold-email` repository (`services/emailService.js`): multi-provider
failover, channel health tracking, validation, bulk batching and
template personalization.  Transport behaviour (nodemailer
`sendMail`/`verify`) is modelled as data carried on each channel,
since the transport library is an external collaborator.
-/

namespace ColdEmail

/-- JS truthiness of an optional string field: `undefined`/`null` and the
empty string are falsy, every other string is truthy. -/

def jsTruthy : Option String → Bool
  | none => false
  | some s => !(s == "")

/-- The `to` field of an email object: in JS it may be absent, a single
string, or an array of strings.  An array is truthy even when empty. -/

inductive ToField where
  | absent
  | str (s : String)
  | arr (addrs : List String)
deriving DecidableEq

/-- JS truthiness of the `to` field (`!emailData.to`). -/

def ToField.truthy : ToField → Bool
  | .absent => false
  | .str s => !(s == "")
  | .arr _ => true

/-- Model of `Array.isArray(emailData.to) ? emailData.to : [emailData.to]`. -/

def ToField.recipients : ToField → List String
  | .absent => []
  | .str s => [s]
  | .arr l => l

/-- An email object passed to `sendEmail` (`to`, `subject`, `text`, `html`,
`from`); `to` and `from` are spelled `toField` and `fromAddr` because both are Lean keywords. -/

structure EmailData where
  toField : ToField
  subject : Option String
  text : Option String
  html : Option String
  fromAddr : Option String
deriving DecidableEq

/-- Regex `^[^\s@]+@[^\s@]+\.[^\s@]+$` character class `[^\s@]`. -/

def isAtomChar (c : Char) : Bool := !c.isWhitespace && c != '@'

/-- Model of `isValidEmail`: the string matches `^[^\s@]+@[^\s@]+\.[^\s@]+$`,
i.e. a nonempty `@`/whitespace-free local part, one `@`, and a domain
that is `@`/whitespace-free and contains a dot that is neither its first
nor its last character. -/

def isValidEmail (s : String) : Bool :=
  let cs := s.toList
  let lp := cs.takeWhile (fun c => c != '@')
  let rest := cs.drop (lp.length + 1)
  decide (lp.length < cs.length) && !lp.isEmpty && lp.all isAtomChar &&
    !rest.isEmpty && rest.all isAtomChar && ((rest.drop 1).dropLast.contains '.')

/-- Model of `validateEmailData`: returns the message of the first failing check,
or `none` when the data is accepted. -/

def validateEmailData (e : EmailData) : Option String :=
  if e.toField.truthy = false then some "Recipient email is required"
  else if jsTruthy e.subject = false then some "Email subject is required"
  else if jsTruthy e.text = false ∧ jsTruthy e.html = false then
    some "Email content (text or html) is required"
  else match e.toField.recipients.find? (fun a => !isValidEmail a) with
    | some a => some ("Invalid recipient email: " ++ a)
    | none =>
      match e.fromAddr with
      | some f =>
        if jsTruthy (some f) = true ∧ isValidEmail f = false then
          some ("Invalid sender email: " ++ f)
        else none
      | none => none

/-- Outcome of one `transporter.sendMail` call: resolve with
`{messageId, response}` or reject with an error carrying an optional
`code` and a `message`. -/

inductive TransportResult where
  | ok (messageId : String) (response : String)
  | err (code : Option String) (message : String)
deriving DecidableEq

/-- One entry of `this.transporters`: provider name, mutable health
state, sent counter, plus the modelled behaviour of the wrapped
transporter (`sendMail` and `verify` outcomes). -/

structure Channel where
  name : String
  isHealthy : Bool
  lastError : Option String
  emailsSent : Nat
  sendOutcome : TransportResult
  verifyOutcome : Option String
deriving DecidableEq

def persistentErrorCodes : List String := ["EAUTH", "EENVELOPE", "EMESSAGE"]

def persistentErrorMessages : List String :=
  ["Invalid login", "Authentication failed", "Username and Password not accepted",
   "Invalid credentials"]

/-- Case-insensitive prefix test on character lists. -/

def isPrefixCI : List Char → List Char → Bool
  | [], _ => true
  | _ :: _, [] => false
  | a :: as, b :: bs => (a.toLower == b.toLower) && isPrefixCI as bs

/-- Case-insensitive substring test (`hay.toLowerCase().includes(needle.toLowerCase())`). -/

def hasInfixCI (needle : List Char) : List Char → Bool
  | [] => needle.isEmpty
  | c :: t => isPrefixCI needle (c :: t) || hasInfixCI needle t

/-- Model of `isPersistentError`: the error code is one of the persistent codes, or
the error message contains (case-insensitively) one of the persistent
message fragments. -/

def isPersistentError (code : Option String) (msg : String) : Bool :=
  (match code with
   | some c => persistentErrorCodes.contains c
   | none => false) ||
  persistentErrorMessages.any (fun m => hasInfixCI m.toList msg.toList)

/-- The success value returned by `sendEmail`. -/

structure SendSuccess where
  messageId : String
  provider : String
  response : String
deriving DecidableEq

/-- The errors `sendEmail` can throw. -/

inductive SendError where
  | validation (msg : String)
  | noHealthyProviders
  | allFailed (lastErrorMsg : Option String)
deriving DecidableEq

/-- The thrown `Error`'s message text (`lastError?.message` of a `null`
last error prints as `undefined`). -/

def errorText : SendError → String
  | .validation m => m
  | .noHealthyProviders => "No healthy email providers available"
  | .allFailed le => "Failed to send email with all providers. Last error: " ++ le.getD "undefined"

deriving instance DecidableEq for Except

/-- Result of one `sendEmail` call: the returned value or thrown error,
the channel list after the call's mutations, and the names of the
channels whose transporter was actually invoked, in order. -/

structure SendCallResult where
  result : Except SendError SendSuccess
  channels : List Channel
  attempted : List String
deriving DecidableEq

/-- The failover loop of `sendEmail`.  The source filters
`healthyTransporters` once and iterates that list; walking the full list
and skipping unhealthy entries is equivalent because an attempt can only
demote the channel being attempted. -/

def sendLoop : List Channel → Option String → SendCallResult
  | [], le => ⟨.error (.allFailed le), [], []⟩
  | c :: rest, le =>
    if c.isHealthy then
      match c.sendOutcome with
      | .ok mid resp =>
        ⟨.ok ⟨mid, c.name, resp⟩, { c with emailsSent := c.emailsSent + 1 } :: rest, [c.name]⟩
      | .err code msg =>
        let c' := if isPersistentError code msg then
            { c with isHealthy := false, lastError := some msg } else c
        let r := sendLoop rest (some msg)
        ⟨r.result, c' :: r.channels, c.name :: r.attempted⟩
    else
      let r := sendLoop rest le
      ⟨r.result, c :: r.channels, r.attempted⟩

/-- Model of `sendEmail`: validate, short-circuit when no channel is healthy, then
run the failover loop. -/

def sendEmail (channels : List Channel) (e : EmailData) : SendCallResult :=
  match validateEmailData e with
  | some m => ⟨.error (.validation m), channels, []⟩
  | none =>
    if (channels.filter (fun c => c.isHealthy)).isEmpty then
      ⟨.error .noHealthyProviders, channels, []⟩
    else sendLoop channels none

/-- One element of `getStats().providers`. -/

structure ProviderStat where
  name : String
  isHealthy : Bool
  emailsSent : Nat
  lastError : Option String
deriving DecidableEq

/-- Return value of `getStats`. -/

structure Stats where
  providers : List ProviderStat
  totalProviders : Nat
  healthyProviders : Nat
deriving DecidableEq

/-- Model of `getStats`: a read-only snapshot of the channel list. -/

def getStats (channels : List Channel) : Stats :=
  ⟨channels.map (fun t => ⟨t.name, t.isHealthy, t.emailsSent, t.lastError⟩),
   channels.length, (channels.filter (fun t => t.isHealthy)).length⟩

/-- One element of `healthCheck().providers` (`lastError` is omitted in JS
on the success branch; modelled as `none`). -/

structure HealthEntry where
  name : String
  isHealthy : Bool
  lastError : Option String
  emailsSent : Nat
deriving DecidableEq

/-- Return value of `healthCheck`. -/

structure HealthReport where
  overall : Bool
  providers : List HealthEntry
deriving DecidableEq

/-- The body of `healthCheck`'s loop: re-verify every channel (whatever
its current health flag), mutate it, and collect its status entry. -/

def healthCheckLoop : List Channel → List Channel × List HealthEntry
  | [] => ([], [])
  | c :: rest =>
    let step : Channel × HealthEntry :=
      match c.verifyOutcome with
      | none => ({ c with isHealthy := true, lastError := none },
                 ⟨c.name, true, none, c.emailsSent⟩)
      | some m => ({ c with isHealthy := false, lastError := some m },
                   ⟨c.name, false, some m, c.emailsSent⟩)
    let r := healthCheckLoop rest
    (step.1 :: r.1, step.2 :: r.2)

/-- Model of `healthCheck`: returns the mutated channel list together with the
report (`overall` is `healthStatus.some(s => s.isHealthy)`). -/

def healthCheck (channels : List Channel) : List Channel × HealthReport :=
  let r := healthCheckLoop channels
  (r.1, ⟨r.2.any (fun s => s.isHealthy), r.2⟩)

/-- A provider descriptor from `config.email.providers`, together with the
modelled behaviour of the transporter that would be built from it. -/

structure ProviderConfig where
  name : String
  host : Option String
  user : Option String
  pass : Option String
  verifyOutcome : Option String
  sendOutcome : TransportResult
deriving DecidableEq

/-- Model of `provider.host && provider.auth.user && provider.auth.pass`. -/

def hasCompleteCredentials (p : ProviderConfig) : Bool :=
  jsTruthy p.host && jsTruthy p.user && jsTruthy p.pass

/-- The channel pushed for one provider during `initialize`: healthy when
`transporter.verify()` resolves, unhealthy with the error recorded when
it rejects; the sent counter starts at 0 either way. -/

def initChannel (p : ProviderConfig) : Channel :=
  match p.verifyOutcome with
  | none => ⟨p.name, true, none, 0, p.sendOutcome, p.verifyOutcome⟩
  | some m => ⟨p.name, false, some m, 0, p.sendOutcome, p.verifyOutcome⟩

/-- Model of `initialize`: build a channel for every provider with complete
credentials, then fail iff no channel was configured. -/

def initMailer (providers : List ProviderConfig) : Except String (List Channel) :=
  let channels := providers.filterMap
    (fun p => if hasCompleteCredentials p then some (initChannel p) else none)
  if channels.isEmpty then .error "No email providers configured" else .ok channels

/-- One entry of `results.sent` in `sendBulkEmails`. -/

structure SentEntry where
  index : Nat
  email : ToField
  result : SendSuccess
deriving DecidableEq

/-- One entry of `results.failed` in `sendBulkEmails`. -/

structure FailedEntry where
  index : Nat
  email : ToField
  error : String
deriving DecidableEq

/-- One batch of `sendBulkEmails`: send every message of the batch via
`sendEmail` (the source dispatches them concurrently and awaits the
whole batch; entries are modelled in batch order), tagging each outcome
with its original index (`i + index`) and its `to` field. -/

def processBatch : List Channel → List EmailData → Nat →
    List SentEntry × List FailedEntry × List Channel
  | st, [], _ => ([], [], st)
  | st, m :: rest, i =>
    let r := sendEmail st m
    let tail := processBatch r.channels rest (i + 1)
    match r.result with
    | .ok s => (⟨i, m.toField, s⟩ :: tail.1, tail.2.1, tail.2.2)
    | .error e => (tail.1, ⟨i, m.toField, errorText e⟩ :: tail.2.1, tail.2.2)

/-- The batches `emails.slice(i, i + batchSize)` for `i = 0, bs, 2*bs, …`,
via structural fuel (one unit per loop iteration; `fuel = l.length`
suffices whenever `bs ≥ 1`; for `bs = 0` the JS loop never terminates,
which the fuel guard renders as a degenerate unused value). -/

def toBatchesAux (bs : Nat) : Nat → List α → List (List α)
  | _, [] => []
  | 0, l => [l]
  | fuel + 1, l => l.take bs :: toBatchesAux bs fuel (l.drop bs)

/-- The sequence of dispatch waves of `sendBulkEmails`. -/

def toBatches (bs : Nat) (l : List α) : List (List α) := toBatchesAux bs l.length l

/-- The batch loop of `sendBulkEmails`: process each batch, abort with the
first failure when `continueOnError` is false, pause between batches
(`if (i + batchSize < emails.length) await delay(...)`; the delay count
is returned), and accumulate the report. -/

def runBatches (cont : Bool) (total bs : Nat) :
    List Channel → List (List EmailData) → Nat →
    Except String (List SentEntry × List FailedEntry × List Channel × Nat)
  | st, [], _ => .ok ([], [], st, 0)
  | st, b :: more, i =>
    let r := processBatch st b i
    match (if cont then none else r.2.1.head?) with
    | some f => .error f.error
    | none =>
      let d : Nat := if i + bs < total then 1 else 0
      match runBatches cont total bs r.2.2 more (i + bs) with
      | .error e => .error e
      | .ok (s2, f2, st2, d2) => .ok (r.1 ++ s2, r.2.1 ++ f2, st2, d + d2)

/-- Return value of `sendBulkEmails`. -/

structure BulkReport where
  sent : List SentEntry
  failed : List FailedEntry
  total : Nat
deriving DecidableEq

/-- Options of `sendBulkEmails` (defaults 10 / 1000 / true). -/

structure BulkOptions where
  batchSize : Nat := 10
  delayBetweenBatches : Nat := 1000
  continueOnError : Bool := true
deriving DecidableEq

/-- Model of `sendBulkEmails`: batch the input, run the batch loop, and return the
report together with the final channel state and the number of
inter-batch pauses performed. -/

def sendBulkEmails (channels : List Channel) (emails : List EmailData)
    (opts : BulkOptions) :
    Except String (BulkReport × List Channel × Nat) :=
  match runBatches opts.continueOnError emails.length opts.batchSize channels
      (toBatches opts.batchSize emails) 0 with
  | .error e => .error e
  | .ok (s, f, st, d) => .ok (⟨s, f, emails.length⟩, st, d)

/-- An email template (`subject`, `content`, optional `htmlContent`). -/

structure Template where
  subject : String
  content : String
  htmlContent : Option String
deriving DecidableEq

/-- A prospect record as used by `createPersonalizedEmail`. -/

structure Prospect where
  firstName : Option String
  lastName : Option String
  fullName : Option String
  company : Option String
  jobTitle : Option String
  location : Option String
deriving DecidableEq

/-- Campaign data as used by `createPersonalizedEmail`. -/

structure CampaignData where
  name : Option String
  senderName : Option String
  senderEmail : Option String
deriving DecidableEq

/-- JS `v || d` on an optional string value (empty string is falsy). -/

def jsOr (v : Option String) (d : String) : String :=
  match v with
  | some s => if s == "" then d else s
  | none => d

/-- The `variables` object of `createPersonalizedEmail`, in insertion
order (`Object.entries` iterates string keys in that order). -/

def templateVariables (p : Prospect) (c : CampaignData) : List (String × String) :=
  [("firstName", jsOr p.firstName "there"),
   ("lastName", jsOr p.lastName ""),
   ("fullName", jsOr p.fullName (jsOr p.firstName "there")),
   ("company", jsOr p.company "your company"),
   ("jobTitle", jsOr p.jobTitle "your role"),
   ("location", jsOr p.location ""),
   ("campaignName", jsOr c.name ""),
   ("senderName", jsOr c.senderName ""),
   ("senderEmail", jsOr c.senderEmail "")]

/-- The backquote character, spelled via its code point. -/
def backquoteChar : Char := Char.ofNat 96

/-- The single-quote character, spelled via its code point. -/
def singleQuoteChar : Char := Char.ofNat 39

/-- ECMA-262 GetSubstitution for a string replacement value and a regexp
with zero capture groups, as `String.prototype.replace` applies it to
the replacement: `$$` yields `$`, `$&` the matched text, a dollar
followed by a backquote the part of the original subject before the
match, a dollar followed by a single quote the part after the match;
any other `$`-sequence (including `$1`, `$<`, and a trailing `$`, since
the pattern has no capture groups) is literal text. -/
def getSubstitution (matched pre post : List Char) : List Char → List Char
  | [] => []
  | [c] => [c]
  | c :: d :: rest =>
    if c == '$' then
      if d == '$' then '$' :: getSubstitution matched pre post rest
      else if d == '&' then matched ++ getSubstitution matched pre post rest
      else if d == backquoteChar then pre ++ getSubstitution matched pre post rest
      else if d == singleQuoteChar then post ++ getSubstitution matched pre post rest
      else c :: getSubstitution matched pre post (d :: rest)
    else c :: getSubstitution matched pre post (d :: rest)

/-- Whether a replacement value contains a `$`-substitution pattern,
i.e. a dollar immediately followed by a dollar, an ampersand, a
backquote or a single quote; on a pattern-free value `getSubstitution`
is the identity. -/
def hasDollarPattern : List Char → Bool
  | [] => false
  | [_] => false
  | c :: d :: rest =>
    ((c == '$') && ((d == '$') || (d == '&') || (d == backquoteChar) ||
      (d == singleQuoteChar))) ||
    hasDollarPattern (d :: rest)

/-- Model of `s.replace(new RegExp(pat, 'gi'), repl)` for a literal pattern `pat`:
left-to-right scan over the subject, case-insensitive match, the
replacement value expanded by `getSubstitution` against the matched
slice of the subject and the text before/after the match (ECMA-262
string replacement), and neither the inserted text nor the matched text
rescanned.  `pos` is the current index into the original subject `orig`;
structural fuel (one unit per examined character, `fuel = s.length`
suffices for nonempty patterns; an empty pattern — which no caller
builds — is returned unchanged). -/
def replaceCIAux (pat repl orig : List Char) : Nat → Nat → List Char → List Char
  | _, _, [] => []
  | 0, _, s => s
  | fuel + 1, pos, c :: rest =>
    if pat.isEmpty then c :: rest
    else if isPrefixCI pat (c :: rest) then
      getSubstitution ((c :: rest).take pat.length) (orig.take pos)
          (rest.drop (pat.length - 1)) repl ++
        replaceCIAux pat repl orig fuel (pos + pat.length) (rest.drop (pat.length - 1))
    else c :: replaceCIAux pat repl orig fuel (pos + 1) rest

/-- Case-insensitive global replacement of the literal pattern `pat` by
the replacement value `repl` (with `$`-substitution) in `s`. -/
def replaceCI (pat repl s : String) : String :=
  ⟨replaceCIAux pat.toList repl.toList s.toList s.toList.length 0 s.toList⟩

/-- Fold the `Object.entries(variables).forEach` replacements, building
the `\x7b\x7bkey\x7d\x7d` pattern for each variable. -/

def applyVars (vars : List (String × String)) (s : String) : String :=
  vars.foldl (fun acc kv => replaceCI ("\x7b\x7b" ++ kv.1 ++ "\x7d\x7d") kv.2 acc) s

/-- Return value of `createPersonalizedEmail`. -/

structure PersonalizedEmail where
  subject : String
  text : String
  html : Option String
deriving DecidableEq

/-- Model of `createPersonalizedEmail`: substitute every template variable into
subject, content and (when present) HTML content.  The source's
`if (personalizedHtml)` guard only skips replacement on `undefined`
(kept `none`) or the empty string, on which replacement is the
identity, so it is modelled by `Option.map`. -/

def createPersonalizedEmail (t : Template) (p : Prospect) (c : CampaignData) :
    PersonalizedEmail :=
  let vars := templateVariables p c
  ⟨applyVars vars t.subject, applyVars vars t.content, t.htmlContent.map (applyVars vars)⟩

def exC1a : Channel := ⟨"p1", true, none, 0, .err (some "EAUTH") "Invalid login", none⟩

def exC1b : Channel := ⟨"p2", true, none, 3, .ok "mid-2" "250 OK", none⟩

def exC1c : Channel := ⟨"p3", true, none, 0, .ok "mid-3" "250 OK", none⟩

def exEmailOK : EmailData := ⟨.str "a@b.co", some "Sub", some "T", none, none⟩

def exC3a : Channel := ⟨"p1", false, some "down", 0, .ok "m" "r", some "down"⟩

def exC4 : Channel := ⟨"p4", true, none, 2, .err (some "ETIMEDOUT") "Connection timed out", none⟩

/-- The value of the loop-local `lastError` variable after the failover
loop has run over `l` starting from `le`. -/

def lastFailMsg : List Channel → Option String → Option String
  | [], le => le
  | c :: rest, le =>
    if c.isHealthy then
      match c.sendOutcome with
      | .err _ m => lastFailMsg rest (some m)
      | .ok _ _ => lastFailMsg rest le
    else lastFailMsg rest le

def exC5a : Channel := ⟨"p1", true, none, 0, .err none "greylisted, try later", none⟩

def exC5b : Channel := ⟨"p2", false, some "dead", 1, .ok "m" "r", some "dead"⟩

def exC5c : Channel := ⟨"p3", true, none, 2, .err (some "ETIMEDOUT") "Connection timed out", none⟩

/-- The channel state written by one iteration of `healthCheck`'s loop:
determined by the fresh `verify` outcome alone, never by the current
`isHealthy` flag. -/

def refreshChannel (c : Channel) : Channel :=
  match c.verifyOutcome with
  | none => { c with isHealthy := true, lastError := none }
  | some m => { c with isHealthy := false, lastError := some m }

/-- The status entry pushed for one channel by `healthCheck`. -/

def healthEntryOf (c : Channel) : HealthEntry :=
  match c.verifyOutcome with
  | none => ⟨c.name, true, none, c.emailsSent⟩
  | some m => ⟨c.name, false, some m, c.emailsSent⟩

def exProvOk : ProviderConfig :=
  ⟨"primary", some "smtp.a.co", some "u", some "p", none, .ok "m" "r"⟩

def exProvBadVerify : ProviderConfig :=
  ⟨"secondary", some "smtp.b.co", some "u", some "p", some "Invalid login", .ok "m" "r"⟩

def exProvIncomplete : ProviderConfig :=
  ⟨"tertiary", some "smtp.c.co", some "u", none, none, .ok "m" "r"⟩

/-- The template of the C8 claim, with the `firstName` placeholder in
subject, content and HTML content. -/

def helloTemplate : Template :=
  ⟨"Hello \x7b\x7bfirstName\x7d\x7d", "Hello \x7b\x7bfirstName\x7d\x7d",
   some "Hello \x7b\x7bfirstName\x7d\x7d"⟩

/-- The template-variable keys that follow `firstName` in insertion order. -/

def laterKeys : List String :=
  ["lastName", "fullName", "company", "jobTitle", "location",
   "campaignName", "senderName", "senderEmail"]

/-- The indices `i, i+1, …, i+n-1` assigned to a run of `n` messages
starting at original index `i`. -/

def idxRange (i n : Nat) : List Nat :=
  match n with
  | 0 => []
  | n + 1 => i :: idxRange (i + 1) n

/-- A minimal valid message used by the C7 witness. -/

def exBulkEmail : EmailData := ⟨.str "a@b.co", some "Sub", some "T", none, none⟩

/-- C1: with three healthy channels, a persistent failure on the first
and a success on the second, `sendEmail` succeeds tagged with the second
channel's name; afterwards the first channel is unhealthy with the error
recorded, the second's sent counter is incremented by exactly one, the
third is untouched and its transporter is never invoked. -/
theorem c1_failover (c1 c2 c3 : Channel) (e : EmailData) (code : Option String)
    (msg mid resp : String)
    (hv : validateEmailData e = none)
    (h1 : c1.isHealthy = true) (h2 : c2.isHealthy = true) (h3 : c3.isHealthy = true)
    (ht1 : c1.sendOutcome = .err code msg)
    (hp : isPersistentError code msg = true)
    (ht2 : c2.sendOutcome = .ok mid resp) :
    sendEmail [c1, c2, c3] e =
      ⟨.ok ⟨mid, c2.name, resp⟩,
       [{ c1 with isHealthy := false, lastError := some msg },
        { c2 with emailsSent := c2.emailsSent + 1 }, c3],
       [c1.name, c2.name]⟩ := by
  simp [sendEmail, hv, sendLoop, h1, h2, ht1, ht2, hp]

/-- C1 witness: the failover theorem evaluated at a concrete mailer. -/
theorem c1_failover_witness :
    sendEmail [exC1a, exC1b, exC1c] exEmailOK =
      ⟨.ok ⟨"mid-2", "p2", "250 OK"⟩,
       [⟨"p1", false, some "Invalid login", 0, .err (some "EAUTH") "Invalid login", none⟩,
        ⟨"p2", true, none, 4, .ok "mid-2" "250 OK", none⟩, exC1c],
       ["p1", "p2"]⟩ :=
  c1_failover exC1a exC1b exC1c exEmailOK (some "EAUTH") "Invalid login" "mid-2" "250 OK"
    (by decide) rfl rfl rfl rfl (by decide) rfl

/-- C3: when every configured channel is unhealthy, `sendEmail` throws the
no-healthy-provider error, mutates nothing, and invokes no transporter. -/
theorem c3_no_healthy (channels : List Channel) (e : EmailData)
    (hv : validateEmailData e = none)
    (hall : ∀ c ∈ channels, c.isHealthy = false) :
    sendEmail channels e = ⟨.error .noHealthyProviders, channels, []⟩ := by
  have hf : channels.filter (fun c => c.isHealthy) = [] := by
    rw [List.filter_eq_nil_iff]
    intro a ha
    simp [hall a ha]
  simp [sendEmail, hv, hf]

/-- C3 witness: the short-circuit theorem evaluated at a concrete mailer. -/
theorem c3_no_healthy_witness :
    sendEmail [exC3a] exEmailOK = ⟨.error .noHealthyProviders, [exC3a], []⟩ :=
  c3_no_healthy [exC3a] exEmailOK (by decide) (by decide)

/-- C4: inside the failover loop, an error whose code is `EAUTH`,
`EENVELOPE` or `EMESSAGE` is classified persistent; a persistent failure
marks the channel unhealthy and records the message, a non-persistent
one leaves the channel's fields untouched, and in both cases the loop
continues with the remaining channels. -/
theorem c4_error_classification (c : Channel) (rest : List Channel) (le : Option String)
    (code : Option String) (msg : String)
    (hH : c.isHealthy = true) (hT : c.sendOutcome = .err code msg) :
    ((code = some "EAUTH" ∨ code = some "EENVELOPE" ∨ code = some "EMESSAGE") →
       isPersistentError code msg = true) ∧
    (isPersistentError code msg = true →
       sendLoop (c :: rest) le =
         ⟨(sendLoop rest (some msg)).result,
          { c with isHealthy := false, lastError := some msg } :: (sendLoop rest (some msg)).channels,
          c.name :: (sendLoop rest (some msg)).attempted⟩) ∧
    (isPersistentError code msg = false →
       sendLoop (c :: rest) le =
         ⟨(sendLoop rest (some msg)).result,
          c :: (sendLoop rest (some msg)).channels,
          c.name :: (sendLoop rest (some msg)).attempted⟩) := by
  refine ⟨?_, ?_, ?_⟩
  · rintro (rfl | rfl | rfl) <;> simp [isPersistentError, persistentErrorCodes]
  · intro hp
    simp [sendLoop, hH, hT, hp]
  · intro hp
    simp [sendLoop, hH, hT, hp]

/-- C4 witness: a transient timeout leaves the channel untouched and the
loop continues onto the rest of the list. -/
theorem c4_error_classification_witness :
    sendLoop [exC4] none =
      ⟨(sendLoop [] (some "Connection timed out")).result,
       exC4 :: (sendLoop [] (some "Connection timed out")).channels,
       "p4" :: (sendLoop [] (some "Connection timed out")).attempted⟩ :=
  (c4_error_classification exC4 [] none (some "ETIMEDOUT") "Connection timed out"
    rfl rfl).2.2 (by decide)

/-- C2 counterexample: a message whose sender address is the empty string
— which `isValidEmail` rejects, i.e. a malformed sender — passes
validation (the `emailData.from &&` guard skips falsy senders) and a
channel IS contacted, contradicting the claim that every message with a
malformed sender fails validation with no network call. -/
theorem c2_counterexample :
    isValidEmail "" = false ∧
    validateEmailData ⟨.str "a@b.co", some "Sub", some "T", none, some ""⟩ = none ∧
    (sendEmail [⟨"primary", true, none, 0, .ok "mid-1" "250 OK", none⟩]
      ⟨.str "a@b.co", some "Sub", some "T", none, some ""⟩).attempted = ["primary"] := by
  decide

/-- C2 (amended): for every message with a falsy recipient field, falsy
subject, both bodies falsy, a malformed recipient address, or a truthy
(present, nonempty) malformed sender address, `sendEmail` throws a
validation error naming the missing or invalid field, leaves every
channel untouched, and invokes no transporter. -/
theorem c2_validation (channels : List Channel) (e : EmailData)
    (h : e.toField.truthy = false ∨ jsTruthy e.subject = false ∨
         (jsTruthy e.text = false ∧ jsTruthy e.html = false) ∨
         (∃ a ∈ e.toField.recipients, isValidEmail a = false) ∨
         (∃ f, e.fromAddr = some f ∧ jsTruthy (some f) = true ∧ isValidEmail f = false)) :
    ∃ m, validateEmailData e = some m ∧
      sendEmail channels e = ⟨.error (.validation m), channels, []⟩ ∧
      (m = "Recipient email is required" ∨ m = "Email subject is required" ∨
       m = "Email content (text or html) is required" ∨
       (∃ a ∈ e.toField.recipients, isValidEmail a = false ∧ m = "Invalid recipient email: " ++ a) ∨
       (∃ f, e.fromAddr = some f ∧ isValidEmail f = false ∧ m = "Invalid sender email: " ++ f)) := by
  have key : ∃ m, validateEmailData e = some m ∧
      (m = "Recipient email is required" ∨ m = "Email subject is required" ∨
       m = "Email content (text or html) is required" ∨
       (∃ a ∈ e.toField.recipients, isValidEmail a = false ∧ m = "Invalid recipient email: " ++ a) ∨
       (∃ f, e.fromAddr = some f ∧ isValidEmail f = false ∧ m = "Invalid sender email: " ++ f)) := by
    by_cases h1 : e.toField.truthy = false
    · exact ⟨_, by simp [validateEmailData, h1], Or.inl rfl⟩
    have h1' : e.toField.truthy = true := by revert h1; cases e.toField.truthy <;> simp
    by_cases h2 : jsTruthy e.subject = false
    · exact ⟨_, by simp [validateEmailData, h1', h2], Or.inr (Or.inl rfl)⟩
    have h2' : jsTruthy e.subject = true := by revert h2; cases jsTruthy e.subject <;> simp
    by_cases h3 : jsTruthy e.text = false ∧ jsTruthy e.html = false
    · exact ⟨_, by simp [validateEmailData, h1', h2', h3], Or.inr (Or.inr (Or.inl rfl))⟩
    cases hfind : e.toField.recipients.find? (fun a => !isValidEmail a) with
    | some b =>
      refine ⟨"Invalid recipient email: " ++ b,
        by simp [validateEmailData, h1', h2', h3, hfind], ?_⟩
      refine Or.inr (Or.inr (Or.inr (Or.inl ⟨b, List.mem_of_find?_eq_some hfind, ?_, rfl⟩)))
      have := List.find?_some hfind
      simpa using this
    | none =>
      have hrec : ∀ a ∈ e.toField.recipients, isValidEmail a = true := by
        intro a ha
        have := List.find?_eq_none.mp hfind a ha
        simpa using this
      obtain ⟨f, hf, hft, hfv⟩ :
          ∃ f, e.fromAddr = some f ∧ jsTruthy (some f) = true ∧ isValidEmail f = false := by
        rcases h with h | h | h | h | h
        · exact absurd h1' (by simp [h])
        · exact absurd h2' (by simp [h])
        · exact absurd h3 (by simp [h])
        · obtain ⟨a, ha, hav⟩ := h
          exact absurd (hrec a ha) (by simp [hav])
        · exact h
      refine ⟨"Invalid sender email: " ++ f, ?_,
        Or.inr (Or.inr (Or.inr (Or.inr ⟨f, hf, hfv, rfl⟩)))⟩
      simp [validateEmailData, h1', h2', h3, hfind, hf, hft, hfv]
  obtain ⟨m, hm, hnames⟩ := key
  exact ⟨m, hm, by simp [sendEmail, hm], hnames⟩

/-- C2 witness: the amended validation theorem evaluated at a concrete
message missing its subject. -/
theorem c2_validation_witness :
    ∃ m, validateEmailData ⟨.str "a@b.co", none, some "T", none, none⟩ = some m ∧
      sendEmail [exC1b] ⟨.str "a@b.co", none, some "T", none, none⟩ =
        ⟨.error (.validation m), [exC1b], []⟩ ∧
      (m = "Recipient email is required" ∨ m = "Email subject is required" ∨
       m = "Email content (text or html) is required" ∨
       (∃ a ∈ (ToField.str "a@b.co").recipients, isValidEmail a = false ∧
          m = "Invalid recipient email: " ++ a) ∨
       (∃ f, (none : Option String) = some f ∧ isValidEmail f = false ∧
          m = "Invalid sender email: " ++ f)) :=
  c2_validation [exC1b] ⟨.str "a@b.co", none, some "T", none, none⟩
    (Or.inr (Or.inl (by decide)))

theorem sendLoop_result_of_all_fail :
    ∀ (l : List Channel) (le : Option String),
      (∀ c ∈ l, c.isHealthy = true → ∃ code m, c.sendOutcome = .err code m) →
      (sendLoop l le).result = .error (.allFailed (lastFailMsg l le)) := by
  intro l
  induction l with
  | nil => intro le _; simp [sendLoop, lastFailMsg]
  | cons c rest ih =>
    intro le hall
    by_cases hc : c.isHealthy = true
    · obtain ⟨code, m, hm⟩ := hall c (by simp) hc
      have h2 := ih (some m) (fun x hx => hall x (by simp [hx]))
      simp [sendLoop, lastFailMsg, hc, hm, h2]
    · have hc' : c.isHealthy = false := by revert hc; cases c.isHealthy <;> simp
      have h2 := ih le (fun x hx => hall x (by simp [hx]))
      simp [sendLoop, lastFailMsg, hc', h2]

theorem lastFailMsg_of_no_healthy :
    ∀ (l : List Channel) (le : Option String),
      (∀ c ∈ l, c.isHealthy = false) → lastFailMsg l le = le := by
  intro l
  induction l with
  | nil => intro le _; simp [lastFailMsg]
  | cons c rest ih =>
    intro le hall
    have hc := hall c (by simp)
    simp [lastFailMsg, hc, ih le (fun x hx => hall x (by simp [hx]))]

theorem lastFailMsg_getLast :
    ∀ (l : List Channel) (le : Option String) (clast : Channel) (code : Option String)
      (msg : String),
      (∀ c ∈ l, c.isHealthy = true → ∃ co m, c.sendOutcome = .err co m) →
      (l.filter (fun c => c.isHealthy)).getLast? = some clast →
      clast.sendOutcome = .err code msg →
      lastFailMsg l le = some msg := by
  intro l
  induction l with
  | nil => intro le clast code msg _ hlast _; simp at hlast
  | cons c rest ih =>
    intro le clast code msg hall hlast hcl
    by_cases hc : c.isHealthy = true
    · obtain ⟨co, m, hm⟩ := hall c (by simp) hc
      rw [List.filter_cons_of_pos (by simp [hc])] at hlast
      cases hrest : rest.filter (fun c => c.isHealthy) with
      | nil =>
        rw [hrest] at hlast
        simp at hlast
        have hnone : ∀ x ∈ rest, x.isHealthy = false := by
          intro x hx
          have := List.filter_eq_nil_iff.mp hrest x hx
          revert this; cases x.isHealthy <;> simp
        have hmm : m = msg := by
          rw [← hlast] at hcl
          rw [hm] at hcl
          exact (TransportResult.err.injEq _ _ _ _).mp hcl |>.2
        subst hmm
        simp [lastFailMsg, hc, hm, lastFailMsg_of_no_healthy rest (some m) hnone]
      | cons x xs =>
        rw [hrest] at hlast
        rw [List.getLast?_cons_cons] at hlast
        rw [← hrest] at hlast
        have h2 := ih (some m) clast code msg (fun y hy => hall y (by simp [hy])) hlast hcl
        simp [lastFailMsg, hc, hm, h2]
    · have hc' : c.isHealthy = false := by revert hc; cases c.isHealthy <;> simp
      rw [List.filter_cons_of_neg (by simp [hc'])] at hlast
      have h2 := ih le clast code msg (fun y hy => hall y (by simp [hy])) hlast hcl
      simp [lastFailMsg, hc', h2]

/-- C5: when at least one channel is healthy but every healthy channel's
send attempt rejects, `sendEmail` throws the aggregate
all-providers-exhausted error carrying the message of the last failure
encountered, i.e. the error of the last healthy channel in configuration
order. -/
theorem c5_all_exhausted (channels : List Channel) (e : EmailData)
    (hv : validateEmailData e = none)
    (hne : channels.filter (fun c => c.isHealthy) ≠ [])
    (hfail : ∀ c ∈ channels, c.isHealthy = true → ∃ code msg, c.sendOutcome = .err code msg)
    (clast : Channel) (code : Option String) (msg : String)
    (hlast : (channels.filter (fun c => c.isHealthy)).getLast? = some clast)
    (hcl : clast.sendOutcome = .err code msg) :
    (sendEmail channels e).result = .error (.allFailed (some msg)) := by
  have hni : (channels.filter (fun c => c.isHealthy)).isEmpty = false := by
    cases hF : channels.filter (fun c => c.isHealthy) with
    | nil => exact absurd hF hne
    | cons x xs => simp
  have h1 : sendEmail channels e = sendLoop channels none := by
    simp [sendEmail, hv, hni]
  rw [h1, sendLoop_result_of_all_fail channels none hfail,
    lastFailMsg_getLast channels none clast code msg hfail hlast hcl]

/-- C5 witness: two healthy channels both failing; the aggregate error
carries the second (last) failure's message. -/
theorem c5_all_exhausted_witness :
    (sendEmail [exC5a, exC5b, exC5c] exEmailOK).result =
      .error (.allFailed (some "Connection timed out")) :=
  c5_all_exhausted [exC5a, exC5b, exC5c] exEmailOK (by decide) (by decide)
    (by
      intro c hc hh
      simp [exC5a, exC5b, exC5c] at hc
      rcases hc with rfl | rfl | rfl
      · exact ⟨none, "greylisted, try later", rfl⟩
      · exact absurd hh (by decide)
      · exact ⟨some "ETIMEDOUT", "Connection timed out", rfl⟩)
    exC5c (some "ETIMEDOUT") "Connection timed out" (by decide) rfl

theorem healthCheckLoop_eq_map (l : List Channel) :
    healthCheckLoop l = (l.map refreshChannel, l.map healthEntryOf) := by
  induction l with
  | nil => simp [healthCheckLoop]
  | cons c rest ih =>
    cases hv : c.verifyOutcome <;>
      simp [healthCheckLoop, refreshChannel, healthEntryOf, hv, ih]

/-- C6: `healthCheck` re-verifies every configured channel whatever its
current health flag (the per-channel update is a function of the fresh
verify outcome only), sets `healthy := true` and clears `lastError` on
each channel whose handshake now succeeds — restoring previously
unhealthy channels — sets `healthy := false` and records the error on
each failing channel, and returns a status entry for every configured
channel. -/
theorem c6_healthCheck (channels : List Channel) :
    healthCheck channels =
      (channels.map refreshChannel,
       ⟨(channels.map healthEntryOf).any (fun s => s.isHealthy), channels.map healthEntryOf⟩) ∧
    (∀ c : Channel, c.verifyOutcome = none →
       (refreshChannel c).isHealthy = true ∧ (refreshChannel c).lastError = none) ∧
    (∀ (c : Channel) (m : String), c.verifyOutcome = some m →
       (refreshChannel c).isHealthy = false ∧ (refreshChannel c).lastError = some m) ∧
    (∀ c : Channel, (refreshChannel c).name = c.name ∧
       (refreshChannel c).emailsSent = c.emailsSent) ∧
    (healthCheck channels).2.providers.length = channels.length := by
  refine ⟨?_, ?_, ?_, ?_, ?_⟩
  · simp [healthCheck, healthCheckLoop_eq_map]
  · intro c hc
    simp [refreshChannel, hc]
  · intro c m hc
    simp [refreshChannel, hc]
  · intro c
    cases hc : c.verifyOutcome <;> simp [refreshChannel, hc]
  · simp [healthCheck, healthCheckLoop_eq_map]

/-- C6 witness: a previously unhealthy channel whose transporter now
verifies is restored to healthy with its error cleared, while a channel
whose handshake fails is demoted with the error recorded. -/
theorem c6_healthCheck_witness :
    healthCheck [⟨"p1", false, some "old error", 5, .ok "m" "r", none⟩,
                 ⟨"p2", true, none, 1, .ok "m" "r", some "verify failed"⟩] =
      ([⟨"p1", true, none, 5, .ok "m" "r", none⟩,
        ⟨"p2", false, some "verify failed", 1, .ok "m" "r", some "verify failed"⟩],
       ⟨true, [⟨"p1", true, none, 5⟩, ⟨"p2", false, some "verify failed", 1⟩]⟩) ∧
    (refreshChannel ⟨"p1", false, some "old error", 5, .ok "m" "r", none⟩).isHealthy = true :=
  ⟨(c6_healthCheck [⟨"p1", false, some "old error", 5, .ok "m" "r", none⟩,
      ⟨"p2", true, none, 1, .ok "m" "r", some "verify failed"⟩]).1.trans (by decide),
   ((c6_healthCheck []).2.1 ⟨"p1", false, some "old error", 5, .ok "m" "r", none⟩ rfl).1⟩

theorem initMailer_channels (providers : List ProviderConfig) :
    providers.filterMap
        (fun p => if hasCompleteCredentials p then some (initChannel p) else none) =
      (providers.filter hasCompleteCredentials).map initChannel := by
  induction providers with
  | nil => simp
  | cons p rest ih =>
    by_cases hp : hasCompleteCredentials p = true
    · simp [List.filterMap_cons, List.filter_cons, hp, ih]
    · have hp' : hasCompleteCredentials p = false := by
        revert hp; cases hasCompleteCredentials p <;> simp
      simp [List.filterMap_cons, List.filter_cons, hp', ih]

/-- C9: initialization builds channels exactly for the providers with
complete (truthy) credentials; each configured channel starts with a
zero sent counter and is healthy with no recorded error iff its
handshake succeeded (unhealthy with the error recorded otherwise) — a
failed handshake does not fail the mailer; and the whole initialization
throws iff no provider has complete credentials. -/
theorem c9_initMailer (providers : List ProviderConfig) :
    ((∃ msg, initMailer providers = .error msg) ↔
       ∀ p ∈ providers, hasCompleteCredentials p = false) ∧
    (∀ chs, initMailer providers = .ok chs →
       chs = (providers.filter hasCompleteCredentials).map initChannel ∧
       ∀ c ∈ chs, c.emailsSent = 0 ∧
         (c.verifyOutcome = none → c.isHealthy = true ∧ c.lastError = none) ∧
         (∀ m, c.verifyOutcome = some m → c.isHealthy = false ∧ c.lastError = some m)) := by
  have hinit : initMailer providers =
      (if ((providers.filter hasCompleteCredentials).map initChannel).isEmpty then
        .error "No email providers configured"
       else .ok ((providers.filter hasCompleteCredentials).map initChannel)) := by
    simp [initMailer, initMailer_channels]
  constructor
  · constructor
    · rintro ⟨msg, hmsg⟩ p hp
      rw [hinit] at hmsg
      by_cases hemp : ((providers.filter hasCompleteCredentials).map initChannel).isEmpty = true
      · have hfil : providers.filter hasCompleteCredentials = [] := by
          have := List.isEmpty_iff.mp hemp
          simpa using this
        have := List.filter_eq_nil_iff.mp hfil p hp
        revert this; cases hasCompleteCredentials p <;> simp
      · rw [if_neg (by simpa using hemp)] at hmsg
        exact absurd hmsg (by simp)
    · intro hall
      have hfil : providers.filter hasCompleteCredentials = [] :=
        List.filter_eq_nil_iff.mpr (fun p hp => by simp [hall p hp])
      exact ⟨"No email providers configured", by rw [hinit, hfil]; simp⟩
  · intro chs hchs
    rw [hinit] at hchs
    by_cases hemp : ((providers.filter hasCompleteCredentials).map initChannel).isEmpty = true
    · rw [if_pos hemp] at hchs
      exact absurd hchs (by simp)
    · rw [if_neg (by simpa using hemp)] at hchs
      have hchs' : chs = (providers.filter hasCompleteCredentials).map initChannel :=
        (Except.ok.inj hchs).symm
      refine ⟨hchs', ?_⟩
      intro c hc
      rw [hchs'] at hc
      obtain ⟨p, _, hpc⟩ := List.mem_map.mp hc
      cases hv : p.verifyOutcome with
      | none =>
        rw [← hpc]
        simp [initChannel, hv]
      | some m =>
        rw [← hpc]
        simp [initChannel, hv]

/-- C9 witness: a lone provider with incomplete credentials makes
initialization throw (via the iff of the theorem), while a mailer with
one verifying provider, one failing-handshake provider and one
incomplete provider yields exactly two channels, the failed handshake
recorded and the incomplete provider skipped. -/
theorem c9_initMailer_witness :
    (∃ msg, initMailer [exProvIncomplete] = .error msg) ∧
    initMailer [exProvOk, exProvBadVerify, exProvIncomplete] =
      .ok [initChannel exProvOk, initChannel exProvBadVerify] ∧
    (initChannel exProvOk).isHealthy = true ∧
    (initChannel exProvBadVerify).isHealthy = false ∧
    (initChannel exProvBadVerify).lastError = some "Invalid login" :=
  ⟨(c9_initMailer [exProvIncomplete]).1.mpr (by decide),
   by decide, by decide, by decide, by decide⟩

/-- C10: a message whose `to` field is an empty array (with subject, at
least one body, and no problematic sender) passes validation — the
truthiness presence check accepts the empty array and the per-address
check is vacuous — and `sendEmail` proceeds to the failover loop with an
empty recipient list. -/
theorem c10_empty_recipient_list (channels : List Channel) (e : EmailData)
    (hto : e.toField = .arr [])
    (hsub : jsTruthy e.subject = true)
    (hbody : jsTruthy e.text = true ∨ jsTruthy e.html = true)
    (hfrom : ∀ f, e.fromAddr = some f → jsTruthy (some f) = true → isValidEmail f = true) :
    validateEmailData e = none ∧ e.toField.recipients = [] ∧
    (channels.filter (fun c => c.isHealthy) ≠ [] →
       sendEmail channels e = sendLoop channels none) := by
  have hv : validateEmailData e = none := by
    have h3 : ¬(jsTruthy e.text = false ∧ jsTruthy e.html = false) := by
      rcases hbody with hb | hb <;> simp [hb]
    rw [validateEmailData]
    rw [if_neg (by simp [hto, ToField.truthy])]
    rw [if_neg (by simp [hsub])]
    rw [if_neg h3]
    rw [hto]
    show (match (ToField.arr []).recipients.find? (fun a => !isValidEmail a) with
      | some a => some ("Invalid recipient email: " ++ a)
      | none => match e.fromAddr with
        | some f =>
          if jsTruthy (some f) = true ∧ isValidEmail f = false then
            some ("Invalid sender email: " ++ f)
          else none
        | none => none) = none
    cases hf : e.fromAddr with
    | none => simp [ToField.recipients, hf]
    | some f =>
      by_cases hft : jsTruthy (some f) = true
      · simp [ToField.recipients, hf, hfrom f hf hft]
      · simp [ToField.recipients, hf]
        intro hft'
        exact absurd hft' hft
  refine ⟨hv, by simp [hto, ToField.recipients], ?_⟩
  intro hne
  have hni : (channels.filter (fun c => c.isHealthy)).isEmpty = false := by
    cases hF : channels.filter (fun c => c.isHealthy) with
    | nil => exact absurd hF hne
    | cons x xs => simp
  simp [sendEmail, hv, hni]

/-- C10 witness: the empty-recipient-list theorem evaluated at a concrete
message and a one-channel mailer. -/
theorem c10_empty_recipient_list_witness :
    validateEmailData ⟨.arr [], some "Sub", some "T", none, none⟩ = none ∧
    (ToField.arr []).recipients = [] ∧
    ([exC1b].filter (fun c => c.isHealthy) ≠ [] →
       sendEmail [exC1b] ⟨.arr [], some "Sub", some "T", none, none⟩ =
         sendLoop [exC1b] none) :=
  c10_empty_recipient_list [exC1b] ⟨.arr [], some "Sub", some "T", none, none⟩
    rfl rfl (Or.inl rfl) (fun f hf _ => by simp at hf)

theorem isPrefixCI_nil_false (a : Char) (as : List Char) :
    isPrefixCI (a :: as) [] = false := rfl

theorem getSubstitution_of_no_pattern (matched pre post : List Char) :
    ∀ (repl : List Char), hasDollarPattern repl = false →
      getSubstitution matched pre post repl = repl := by
  intro repl
  induction repl with
  | nil => intro _; rfl
  | cons c rest ih =>
    intro h
    cases rest with
    | nil => rfl
    | cons d rest2 =>
      rw [hasDollarPattern] at h
      obtain ⟨ha, hb⟩ := Bool.or_eq_false_iff.mp h
      by_cases hc : (c == '$') = true
      · rw [hc, Bool.true_and] at ha
        simp only [Bool.or_eq_false_iff] at ha
        rw [getSubstitution, if_pos hc, if_neg (by simp [ha.1.1.1]),
          if_neg (by simp [ha.1.1.2]), if_neg (by simp [ha.1.2]), if_neg (by simp [ha.2]),
          ih hb]
      · have hc' : (c == '$') = false := by
          revert hc
          cases c == '$' <;> simp
        rw [getSubstitution, if_neg (by simp [hc']), ih hb]

theorem replaceCIAux_of_not_infix (pat repl orig : List Char) :
    ∀ (fuel pos : Nat) (s : List Char), hasInfixCI pat s = false →
      replaceCIAux pat repl orig fuel pos s = s := by
  intro fuel
  induction fuel with
  | zero => intro pos s h; cases s <;> simp [replaceCIAux]
  | succ n ih =>
    intro pos s h
    cases s with
    | nil => simp [replaceCIAux]
    | cons c rest =>
      have hsplit : isPrefixCI pat (c :: rest) = false ∧ hasInfixCI pat rest = false := by
        have h' := h
        rw [hasInfixCI] at h'
        exact Bool.or_eq_false_iff.mp h'
      have hpat : pat.isEmpty = false := by
        cases pat with
        | nil => simp [isPrefixCI] at hsplit
        | cons a as => simp
      rw [replaceCIAux]
      simp only [hpat, Bool.false_eq_true, if_false, hsplit.1, ih (pos + 1) rest hsplit.2]

theorem replaceCI_of_not_infix (pat repl s : String)
    (h : hasInfixCI pat.toList s.toList = false) : replaceCI pat repl s = s := by
  rw [replaceCI,
    replaceCIAux_of_not_infix pat.toList repl.toList s.toList s.toList.length 0 s.toList h]
  cases s
  rfl

theorem applyVars_cons (kv : String × String) (vars : List (String × String)) (s : String) :
    applyVars (kv :: vars) s =
      applyVars vars (replaceCI ("\x7b\x7b" ++ kv.1 ++ "\x7d\x7d") kv.2 s) := rfl

theorem applyVars_of_not_infix (vars : List (String × String)) (s : String)
    (h : ∀ kv ∈ vars, hasInfixCI ("\x7b\x7b" ++ kv.1 ++ "\x7d\x7d").toList s.toList = false) :
    applyVars vars s = s := by
  induction vars with
  | nil => rfl
  | cons kv rest ih =>
    rw [applyVars_cons, replaceCI_of_not_infix _ _ _ (h kv (by simp))]
    exact ih (fun x hx => h x (by simp [hx]))

theorem replaceCI_firstName (v : String) (hd : hasDollarPattern v.toList = false) :
    replaceCI ("\x7b\x7b" ++ "firstName" ++ "\x7d\x7d") v "Hello \x7b\x7bfirstName\x7d\x7d" =
      "Hello " ++ v := by
  show String.mk ('H' :: 'e' :: 'l' :: 'l' :: 'o' :: ' ' ::
      (getSubstitution ("\x7b\x7bfirstName\x7d\x7d".toList) ("Hello ".toList) [] v.toList ++
        [])) = "Hello " ++ v
  rw [getSubstitution_of_no_pattern ("\x7b\x7bfirstName\x7d\x7d".toList) ("Hello ".toList) []
    v.toList hd, List.append_nil]
  cases v
  rfl

theorem templateVariables_unfold (p : Prospect) (c : CampaignData) :
    templateVariables p c =
      ("firstName", jsOr p.firstName "there") ::
      [("lastName", jsOr p.lastName ""),
       ("fullName", jsOr p.fullName (jsOr p.firstName "there")),
       ("company", jsOr p.company "your company"),
       ("jobTitle", jsOr p.jobTitle "your role"),
       ("location", jsOr p.location ""),
       ("campaignName", jsOr c.name ""),
       ("senderName", jsOr c.senderName ""),
       ("senderEmail", jsOr c.senderEmail "")] := rfl

/-- C8 counterexample: with the supplied first name `"$&"`, JS string
replacement expands `$&` to the matched text, so every field keeps the
literal placeholder `"Hello \x7b\x7bfirstName\x7d\x7d"` instead of becoming
`"Hello $&"` — the placeholder is not replaced by the supplied value
and the literal placeholder text remains, refuting the claim as
stated. -/
theorem c8_counterexample :
    (createPersonalizedEmail helloTemplate ⟨some "$&", none, none, none, none, none⟩
        ⟨none, none, none⟩).subject = "Hello \x7b\x7bfirstName\x7d\x7d" ∧
    ("Hello \x7b\x7bfirstName\x7d\x7d" : String) ≠ "Hello " ++ "$&" := by
  decide

/-- C8 (amended): personalization substitutes the `firstName` placeholder
in the subject, text and HTML fields of the hello template: with no
supplied (truthy) first name every field becomes `"Hello there"` (the
neutral default, not the literal placeholder and not a failure); with a
supplied nonempty first name `v` that contains no JS `$`-substitution
pattern and does not itself contain a later placeholder
(case-insensitively), every field becomes `"Hello " ++ v` — in
particular `v = "Ana"` yields `"Hello Ana"`.  (A value containing a
`$`-pattern instead undergoes ECMA-262 GetSubstitution, see the
counterexample.) -/
theorem c8_personalization :
    (∀ (p : Prospect) (c : CampaignData), p.firstName = none →
       createPersonalizedEmail helloTemplate p c =
         ⟨"Hello there", "Hello there", some "Hello there"⟩) ∧
    (∀ (p : Prospect) (c : CampaignData) (v : String), p.firstName = some v → v ≠ "" →
       hasDollarPattern v.toList = false →
       (∀ k ∈ laterKeys,
          hasInfixCI ("\x7b\x7b" ++ k ++ "\x7d\x7d").toList ("Hello " ++ v).toList = false) →
       createPersonalizedEmail helloTemplate p c =
         ⟨"Hello " ++ v, "Hello " ++ v, some ("Hello " ++ v)⟩) := by
  constructor
  · intro p c hfn
    have hfirst : replaceCI ("\x7b\x7b" ++ "firstName" ++ "\x7d\x7d") "there"
        "Hello \x7b\x7bfirstName\x7d\x7d" = "Hello there" := by decide
    have key : applyVars (templateVariables p c) "Hello \x7b\x7bfirstName\x7d\x7d" =
        "Hello there" := by
      rw [templateVariables_unfold, applyVars_cons]
      simp only [hfn, jsOr]
      rw [hfirst]
      refine applyVars_of_not_infix _ _ ?_
      intro kv hkv
      have h1 : kv.1 = "lastName" ∨ kv.1 = "fullName" ∨ kv.1 = "company" ∨
          kv.1 = "jobTitle" ∨ kv.1 = "location" ∨ kv.1 = "campaignName" ∨
          kv.1 = "senderName" ∨ kv.1 = "senderEmail" := by
        simp only [List.mem_cons, List.not_mem_nil, or_false] at hkv
        rcases hkv with rfl | rfl | rfl | rfl | rfl | rfl | rfl | rfl <;> simp
      rcases h1 with h1 | h1 | h1 | h1 | h1 | h1 | h1 | h1 <;> rw [h1] <;> decide
    simp only [createPersonalizedEmail, helloTemplate, key, Option.map_some']
  · intro p c v hfn hv hdollar hno
    have hfirst : replaceCI ("\x7b\x7b" ++ "firstName" ++ "\x7d\x7d") v
        "Hello \x7b\x7bfirstName\x7d\x7d" = "Hello " ++ v := replaceCI_firstName v hdollar
    have hjs : jsOr p.firstName "there" = v := by
      rw [hfn]
      simp [jsOr, hv]
    have key : applyVars (templateVariables p c) "Hello \x7b\x7bfirstName\x7d\x7d" =
        "Hello " ++ v := by
      rw [templateVariables_unfold, applyVars_cons]
      simp only [hjs]
      rw [hfirst]
      refine applyVars_of_not_infix _ _ ?_
      intro kv hkv
      have h1 : kv.1 = "lastName" ∨ kv.1 = "fullName" ∨ kv.1 = "company" ∨
          kv.1 = "jobTitle" ∨ kv.1 = "location" ∨ kv.1 = "campaignName" ∨
          kv.1 = "senderName" ∨ kv.1 = "senderEmail" := by
        simp only [List.mem_cons, List.not_mem_nil, or_false] at hkv
        rcases hkv with rfl | rfl | rfl | rfl | rfl | rfl | rfl | rfl <;> simp
      rcases h1 with h1 | h1 | h1 | h1 | h1 | h1 | h1 | h1 <;> rw [h1] <;>
        exact hno _ (by decide)
    simp only [createPersonalizedEmail, helloTemplate, key, Option.map_some']

/-- C8 witness: no supplied first name yields `"Hello there"`; the
supplied value `"Ana"` yields `"Hello Ana"`. -/
theorem c8_personalization_witness :
    createPersonalizedEmail helloTemplate ⟨none, none, none, none, none, none⟩
        ⟨none, none, none⟩ = ⟨"Hello there", "Hello there", some "Hello there"⟩ ∧
    createPersonalizedEmail helloTemplate ⟨some "Ana", none, none, none, none, none⟩
        ⟨none, none, none⟩ = ⟨"Hello " ++ "Ana", "Hello " ++ "Ana", some ("Hello " ++ "Ana")⟩ :=
  ⟨c8_personalization.1 ⟨none, none, none, none, none, none⟩ ⟨none, none, none⟩ rfl,
   c8_personalization.2 ⟨some "Ana", none, none, none, none, none⟩ ⟨none, none, none⟩ "Ana"
     rfl (by decide) (by decide) (by decide)⟩

theorem idxRange_split : ∀ (m n i : Nat),
    idxRange i (m + n) = idxRange i m ++ idxRange (i + m) n := by
  intro m
  induction m with
  | zero => intro n i; simp [idxRange]
  | succ k ih =>
    intro n i
    have h1 : k + 1 + n = (k + n) + 1 := by omega
    rw [h1, idxRange, idxRange, ih n (i + 1), List.cons_append]
    have h2 : i + 1 + k = i + (k + 1) := by omega
    rw [h2]

theorem idxRange_eq_range' : ∀ (n i : Nat), idxRange i n = List.range' i n := by
  intro n
  induction n with
  | zero => intro i; simp [idxRange]
  | succ k ih => intro i; simp [idxRange, List.range'_succ, ih]

theorem idxRange_zero_eq_range (n : Nat) : idxRange 0 n = List.range n := by
  rw [idxRange_eq_range', List.range_eq_range']

theorem processBatch_spec :
    ∀ (b : List EmailData) (st : List Channel) (i : Nat),
      ((processBatch st b i).1.map (fun en => en.index) ++
        (processBatch st b i).2.1.map (fun en => en.index)).Perm (idxRange i b.length) ∧
      (processBatch st b i).1.length + (processBatch st b i).2.1.length = b.length ∧
      (∀ en ∈ (processBatch st b i).1,
        ∃ j m, b[j]? = some m ∧ en.index = i + j ∧ en.email = m.toField) ∧
      (∀ en ∈ (processBatch st b i).2.1,
        ∃ j m, b[j]? = some m ∧ en.index = i + j ∧ en.email = m.toField) := by
  intro b
  induction b with
  | nil =>
    intro st i
    refine ⟨by simp [processBatch, idxRange], by simp [processBatch], ?_, ?_⟩ <;>
      simp [processBatch]
  | cons m rest ih =>
    intro st i
    obtain ⟨ihp, ihl, ihs, ihf⟩ := ih (sendEmail st m).channels (i + 1)
    cases hr : (sendEmail st m).result with
    | ok s =>
      have hpb : processBatch st (m :: rest) i =
          (⟨i, m.toField, s⟩ :: (processBatch (sendEmail st m).channels rest (i + 1)).1,
           (processBatch (sendEmail st m).channels rest (i + 1)).2.1,
           (processBatch (sendEmail st m).channels rest (i + 1)).2.2) := by
        simp [processBatch, hr]
      rw [hpb]
      refine ⟨?_, ?_, ?_, ?_⟩
      · simp only [List.map_cons, List.cons_append, List.length_cons]
        rw [show idxRange i (rest.length + 1) = i :: idxRange (i + 1) rest.length from rfl]
        exact ihp.cons i
      · simp only [List.length_cons]
        omega
      · intro en hen
        rcases List.mem_cons.mp hen with rfl | hen'
        · exact ⟨0, m, by simp, by simp, rfl⟩
        · obtain ⟨j, mm, hj, hidx, hem⟩ := ihs en hen'
          exact ⟨j + 1, mm, by simpa using hj, by omega, hem⟩
      · intro en hen
        obtain ⟨j, mm, hj, hidx, hem⟩ := ihf en hen
        exact ⟨j + 1, mm, by simpa using hj, by omega, hem⟩
    | error ex =>
      have hpb : processBatch st (m :: rest) i =
          ((processBatch (sendEmail st m).channels rest (i + 1)).1,
           ⟨i, m.toField, errorText ex⟩ :: (processBatch (sendEmail st m).channels rest (i + 1)).2.1,
           (processBatch (sendEmail st m).channels rest (i + 1)).2.2) := by
        simp [processBatch, hr]
      rw [hpb]
      refine ⟨?_, ?_, ?_, ?_⟩
      · simp only [List.map_cons, List.length_cons]
        rw [show idxRange i (rest.length + 1) = i :: idxRange (i + 1) rest.length from rfl]
        exact List.Perm.trans List.perm_middle (ihp.cons i)
      · simp only [List.length_cons]
        omega
      · intro en hen
        obtain ⟨j, mm, hj, hidx, hem⟩ := ihs en hen
        exact ⟨j + 1, mm, by simpa using hj, by omega, hem⟩
      · intro en hen
        rcases List.mem_cons.mp hen with rfl | hen'
        · exact ⟨0, m, by simp, by simp, rfl⟩
        · obtain ⟨j, mm, hj, hidx, hem⟩ := ihf en hen'
          exact ⟨j + 1, mm, by simpa using hj, by omega, hem⟩

theorem toBatchesAux_congr (bs : Nat) (hbs : 0 < bs) :
    ∀ (f1 : Nat) (f2 : Nat) (l : List α), l.length ≤ f1 → l.length ≤ f2 →
      toBatchesAux bs f1 l = toBatchesAux bs f2 l := by
  intro f1
  induction f1 with
  | zero =>
    intro f2 l h1 h2
    have hl : l = [] := List.eq_nil_of_length_eq_zero (Nat.le_zero.mp h1)
    subst hl
    cases f2 <;> simp [toBatchesAux]
  | succ n ih =>
    intro f2 l h1 h2
    cases l with
    | nil => cases f2 <;> simp [toBatchesAux]
    | cons a t =>
      cases f2 with
      | zero => simp at h2
      | succ k =>
        simp only [toBatchesAux]
        congr 1
        refine ih k ((a :: t).drop bs) ?_ ?_ <;>
          simp only [List.length_drop, List.length_cons] at h1 h2 ⊢ <;> omega

theorem toBatches_cons (bs : Nat) (hbs : 0 < bs) (l : List α) (hl : l ≠ []) :
    toBatches bs l = l.take bs :: toBatches bs (l.drop bs) := by
  cases l with
  | nil => exact absurd rfl hl
  | cons a t =>
    show toBatchesAux bs (t.length + 1) (a :: t) = _
    simp only [toBatchesAux]
    congr 1
    exact toBatchesAux_congr bs hbs t.length ((a :: t).drop bs).length ((a :: t).drop bs)
      (by simp only [List.length_drop, List.length_cons]; omega) (le_refl _)

theorem toBatches_ne_nil (bs : Nat) (l : List α) (hl : l ≠ []) :
    toBatches bs l ≠ [] := by
  cases l with
  | nil => exact absurd rfl hl
  | cons a t =>
    show toBatchesAux bs (t.length + 1) (a :: t) ≠ []
    simp [toBatchesAux]

theorem runBatchesTrue_spec (bs : Nat) (rem : List EmailData) (hbs : 0 < bs)
    (st : List Channel) (i total : Nat) (htot : total = i + rem.length) :
    ∃ snt fld st2 d,
      runBatches true total bs st (toBatches bs rem) i = .ok (snt, fld, st2, d) ∧
      d = (toBatches bs rem).length - 1 ∧
      snt.length + fld.length = rem.length ∧
      (snt.map (fun en => en.index) ++ fld.map (fun en => en.index)).Perm
        (idxRange i rem.length) ∧
      (∀ en ∈ snt, ∃ j m, rem[j]? = some m ∧ en.index = i + j ∧ en.email = m.toField) ∧
      (∀ en ∈ fld, ∃ j m, rem[j]? = some m ∧ en.index = i + j ∧ en.email = m.toField) := by
  by_cases hnil : rem = []
  · subst hnil
    exact ⟨[], [], st, 0, by simp [toBatches, toBatchesAux, runBatches],
      by simp [toBatches, toBatchesAux], by simp, by simp [idxRange], by simp, by simp⟩
  by_cases hsmall : rem.length ≤ bs
  · have hb : toBatches bs rem = [rem] := by
      rw [toBatches_cons bs hbs rem hnil, List.take_of_length_le hsmall,
        List.drop_eq_nil_of_le hsmall]
      rfl
    obtain ⟨hp, hl, hs, hf⟩ := processBatch_spec rem st i
    have hd : ¬(i + bs < total) := by omega
    refine ⟨(processBatch st rem i).1, (processBatch st rem i).2.1,
      (processBatch st rem i).2.2, 0, ?_, by rw [hb]; rfl, hl, hp, hs, hf⟩
    rw [hb]
    simp [runBatches, hd]
  · have hbig : bs < rem.length := by omega
    have hdrop : (rem.drop bs).length = rem.length - bs := by simp
    obtain ⟨snt2, fld2, st2, d2, hrun2, hd2, hl2, hp2, hs2, hf2⟩ :=
      runBatchesTrue_spec bs (rem.drop bs) hbs (processBatch st (rem.take bs) i).2.2
        (i + bs) total (by omega)
    obtain ⟨hp1, hl1, hs1, hf1⟩ := processBatch_spec (rem.take bs) st i
    have hbl : (rem.take bs).length = bs := by
      simp only [List.length_take]
      omega
    have hd : i + bs < total := by omega
    refine ⟨(processBatch st (rem.take bs) i).1 ++ snt2,
      (processBatch st (rem.take bs) i).2.1 ++ fld2, st2, 1 + d2, ?_, ?_, ?_, ?_, ?_, ?_⟩
    · rw [toBatches_cons bs hbs rem hnil]
      simp [runBatches, hd, hrun2]
    · rw [toBatches_cons bs hbs rem hnil]
      have hlen2 : toBatches bs (rem.drop bs) ≠ [] :=
        toBatches_ne_nil bs (rem.drop bs) (by
          intro hcon
          rw [hcon] at hdrop
          simp at hdrop
          omega)
      have : 1 ≤ (toBatches bs (rem.drop bs)).length := by
        cases hc : toBatches bs (rem.drop bs) with
        | nil => exact absurd hc hlen2
        | cons x xs => simp
      simp only [List.length_cons]
      omega
    · simp only [List.length_append]
      rw [hbl] at hl1
      omega
    · have hsplitR : idxRange i rem.length = idxRange i bs ++ idxRange (i + bs) (rem.length - bs) := by
        have hsum : bs + (rem.length - bs) = rem.length := by omega
        nth_rewrite 1 [← hsum]
        rw [idxRange_split]
      rw [hsplitR]
      simp only [List.map_append]
      have h1 : ((processBatch st (rem.take bs) i).1.map (fun en => en.index) ++
          (processBatch st (rem.take bs) i).2.1.map (fun en => en.index)).Perm
            (idxRange i bs) := by
        rw [hbl] at hp1
        exact hp1
      have h2 : (snt2.map (fun en => en.index) ++ fld2.map (fun en => en.index)).Perm
          (idxRange (i + bs) (rem.length - bs)) := by
        rw [hdrop] at hp2
        exact hp2
      have shuffle : ∀ (A1 A2 B1 B2 : List Nat),
          ((A1 ++ A2) ++ (B1 ++ B2)).Perm ((A1 ++ B1) ++ (A2 ++ B2)) := by
        intro A1 A2 B1 B2
        rw [List.perm_iff_count]
        intro a
        simp only [List.count_append]
        omega
      exact List.Perm.trans (shuffle _ _ _ _) (h1.append h2)
    · intro en hen
      rcases List.mem_append.mp hen with h | h
      · obtain ⟨j, mm, hj, hidx, hem⟩ := hs1 en h
        refine ⟨j, mm, ?_, hidx, hem⟩
        rw [List.getElem?_take] at hj
        by_cases hjb : j < bs
        · rwa [if_pos hjb] at hj
        · rw [if_neg hjb] at hj
          exact absurd hj (by simp)
      · obtain ⟨j, mm, hj, hidx, hem⟩ := hs2 en h
        refine ⟨bs + j, mm, ?_, by omega, hem⟩
        rw [← List.getElem?_drop]
        exact hj
    · intro en hen
      rcases List.mem_append.mp hen with h | h
      · obtain ⟨j, mm, hj, hidx, hem⟩ := hf1 en h
        refine ⟨j, mm, ?_, hidx, hem⟩
        rw [List.getElem?_take] at hj
        by_cases hjb : j < bs
        · rwa [if_pos hjb] at hj
        · rw [if_neg hjb] at hj
          exact absurd hj (by simp)
      · obtain ⟨j, mm, hj, hidx, hem⟩ := hf2 en h
        refine ⟨bs + j, mm, ?_, by omega, hem⟩
        rw [← List.getElem?_drop]
        exact hj
termination_by rem.length
decreasing_by
  simp only [List.length_drop]
  omega

/-- C7: over 25 input messages with `batchSize = 10` and
`continueOnError = true`, `sendBulkEmails` dispatches exactly three
waves of sizes 10, 10 and 5, performs exactly 2 inter-wave pauses of the
configured delay, and returns a report in which every input index
`0..24` appears exactly once across the sent/failed partitions, each
entry tagged with its original index and the `to` field of the input
message at that index, so sent plus failed counts sum to 25. -/
theorem c7_bulk (channels : List Channel) (emails : List EmailData) (delayMs : Nat)
    (h25 : emails.length = 25) :
    (toBatches 10 emails).map (fun b => b.length) = [10, 10, 5] ∧
    ∃ report st, sendBulkEmails channels emails ⟨10, delayMs, true⟩ = .ok (report, st, 2) ∧
      report.total = 25 ∧
      report.sent.length + report.failed.length = 25 ∧
      (report.sent.map (fun en => en.index) ++
        report.failed.map (fun en => en.index)).Perm (List.range 25) ∧
      (∀ en ∈ report.sent, ∃ m, emails[en.index]? = some m ∧ en.email = m.toField) ∧
      (∀ en ∈ report.failed, ∃ m, emails[en.index]? = some m ∧ en.email = m.toField) := by
  have hne : emails ≠ [] := by
    intro h
    rw [h] at h25
    simp at h25
  have hlen1 : (emails.drop 10).length = 15 := by simp [h25]
  have hne1 : emails.drop 10 ≠ [] := by
    intro h
    rw [h] at hlen1
    simp at hlen1
  have hlen2 : ((emails.drop 10).drop 10).length = 5 := by simp [h25]
  have hne2 : (emails.drop 10).drop 10 ≠ [] := by
    intro h
    rw [h] at hlen2
    simp at hlen2
  have hb3 : toBatches 10 ((emails.drop 10).drop 10) = [(emails.drop 10).drop 10] := by
    have ht : ((emails.drop 10).drop 10).length ≤ 10 := by omega
    rw [toBatches_cons 10 (by omega) _ hne2, List.take_of_length_le ht,
      List.drop_eq_nil_of_le ht]
    rfl
  have hbFull : toBatches 10 emails =
      [emails.take 10, (emails.drop 10).take 10, (emails.drop 10).drop 10] := by
    rw [toBatches_cons 10 (by omega) emails hne, toBatches_cons 10 (by omega) _ hne1, hb3]
  have hwaves : (toBatches 10 emails).map (fun b => b.length) = [10, 10, 5] := by
    rw [hbFull]
    simp only [List.map_cons, List.map_nil, List.length_take]
    rw [h25, hlen1, hlen2]
    decide
  obtain ⟨snt, fld, st2, d, hrun, hd, hl, hp, hs, hf⟩ :=
    runBatchesTrue_spec 10 emails (by omega) channels 0 emails.length (by omega)
  have hd2 : d = 2 := by
    rw [hd, hbFull]
    rfl
  refine ⟨hwaves, ⟨snt, fld, emails.length⟩, st2, ?_, by simp [h25], by rw [h25] at hl; exact hl,
    ?_, ?_, ?_⟩
  · rw [← hd2]
    simp only [sendBulkEmails, hrun]
  · rw [h25] at hp
    rw [← idxRange_zero_eq_range 25]
    exact hp
  · intro en hen
    obtain ⟨j, mm, hj, hidx, hem⟩ := hs en hen
    have : en.index = j := by omega
    rw [this]
    exact ⟨mm, hj, hem⟩
  · intro en hen
    obtain ⟨j, mm, hj, hidx, hem⟩ := hf en hen
    have : en.index = j := by omega
    rw [this]
    exact ⟨mm, hj, hem⟩

/-- C7 witness: the bulk theorem evaluated at 25 copies of a concrete
message over a one-channel mailer. -/
theorem c7_bulk_witness :
    (toBatches 10 (List.replicate 25 exBulkEmail)).map (fun b => b.length) = [10, 10, 5] ∧
    ∃ report st,
      sendBulkEmails [exC1b] (List.replicate 25 exBulkEmail) ⟨10, 500, true⟩ =
        .ok (report, st, 2) ∧
      report.total = 25 ∧
      report.sent.length + report.failed.length = 25 ∧
      (report.sent.map (fun en => en.index) ++
        report.failed.map (fun en => en.index)).Perm (List.range 25) ∧
      (∀ en ∈ report.sent, ∃ m, (List.replicate 25 exBulkEmail)[en.index]? = some m ∧
         en.email = m.toField) ∧
      (∀ en ∈ report.failed, ∃ m, (List.replicate 25 exBulkEmail)[en.index]? = some m ∧
         en.email = m.toField) :=
  c7_bulk [exC1b] (List.replicate 25 exBulkEmail) 500 (by simp)

end ColdEmail
